import Mathlib

/-!
Shallow embedding of the backtest engine of `quant_system`
(`src/quant_system/backtest/backtest_engine.py`), together with proofs of
the specification's claims about it.

Modelling conventions:
* Python floats are modelled as exact rationals (`ℚ`).
* Python `int(x)` (truncation toward zero) is `pyInt`; Python's floor
  division `//` on integers is `Int.fdiv`.
* Dates are modelled as naturals ordered as the date strings are by
  `pd.to_datetime`.
* The engine's mutable fields (`current_capital`, `positions`, `trade_log`,
  `equity_curve`) form the state record `EngineState`; `positions` is the
  insertion-ordered association list that models the Python dict.
* `execute_trade` returns a `TradeOutcome`: `ok st` models `return True`
  with `st` the mutated engine, `rejected` models the early `return False`
  paths (which mutate nothing), `raisedNameError` models the unhandled
  `NameError` on an action that is neither BUY nor SELL (the trade record
  reads `actual_volume`/`commission`, assigned only in those two branches),
  and `raisedZeroDiv` models an unhandled `ZeroDivisionError`.  In Python
  each exception is raised before any assignment to `self`, so the state
  is unchanged at the raise.
* The real-valued metrics `annual_return`, `volatility` and `sharpe_ratio`
  of `calculate_backtest_metrics` involve float `**` and `sqrt` and are not
  part of the rational model; in the degenerate branch (empty equity curve)
  the source sets them to the literal `0.0`.  The float `inf` value of
  `profit_factor` is modelled by `none : Option ℚ`.
-/

namespace Livemore

/-- BACKTEST_CONFIG['commission_rate'] = COMMISSION_RATE = 0.0003
(src/quant_system/config/settings.py). -/
def commission_rate : ℚ := 3 / 10000

/-- Stamp tax rate used in the SELL branch: `tax = revenue * 0.001`. -/
def tax_rate : ℚ := 1 / 1000

/-- Python `int(x)`: truncation toward zero. -/
def pyInt (q : ℚ) : ℤ := if 0 ≤ q then ⌊q⌋ else ⌈q⌉

/-- Python `n // 100 * 100` on integers (`//` is floor division). -/
def lotFloor (n : ℤ) : ℤ := n.fdiv 100 * 100

/-- Position dataclass (fields used by the engine; `current_price` and
`unrealized_pnl` keep their defaults and are never read, so are omitted). -/
structure Position where
  symbol : String
  quantity : ℤ
  avg_price : ℚ
  entry_date : ℕ
deriving DecidableEq, Repr

/-- TradeSignal dataclass (src/quant_system/utils/livermore_strategy.py). -/
structure TradeSignal where
  date : ℕ
  symbol : String
  action : String
  price : ℚ
  volume : ℤ
  reason : String
  confidence : ℚ
deriving DecidableEq, Repr

/-- One entry of `self.trade_log` (the dict built at the end of
`execute_trade`). -/
structure TradeRecord where
  date : ℕ
  symbol : String
  action : String
  price : ℚ
  quantity : ℤ
  commission : ℚ
  reason : String
  capital_after : ℚ
  equity : ℚ
deriving DecidableEq, Repr

/-- Market data: per symbol, the rows (date, close) of its price table. -/
def MarketData : Type := List (String × List (ℕ × ℚ))

/-- The mutable fields of `BacktestEngine`. -/
structure EngineState where
  initial_capital : ℚ
  current_capital : ℚ
  positions : List (String × Position)
  trade_log : List TradeRecord
  equity_curve : List (ℕ × ℚ)
deriving DecidableEq, Repr

/-- `BacktestEngine.__init__`: stores the capital and starts with empty
collections.  The source performs no validation of `initial_capital`. -/
def engineInit (initial_capital : ℚ) : EngineState :=
  { initial_capital := initial_capital
    current_capital := initial_capital
    positions := []
    trade_log := []
    equity_curve := [] }

/-- Dict lookup `self.positions[symbol]` / `symbol in self.positions`. -/
def lookupPos (ps : List (String × Position)) (s : String) : Option Position :=
  (ps.find? (fun p => decide (p.1 = s))).map (·.2)

/-- Dict update `self.positions[symbol] = p` (in-place update of an existing
key, append of a new key — Python dicts keep insertion order). -/
def insertPos : List (String × Position) → String → Position → List (String × Position)
  | [], s, p => [(s, p)]
  | (k, v) :: rest, s, p =>
      if k = s then (k, p) :: rest else (k, v) :: insertPos rest s p

/-- Dict deletion `del self.positions[symbol]`. -/
def erasePos : List (String × Position) → String → List (String × Position)
  | [], _ => []
  | (k, v) :: rest, s => if k = s then rest else (k, v) :: erasePos rest s

/-- First row of `market_data[symbol]` whose date equals the given date,
returning its close (None when the symbol is absent or no row matches). -/
def lookupClose (md : MarketData) (sym : String) (d : ℕ) : Option ℚ :=
  match (md.find? (fun p => decide (p.1 = sym))) with
  | none => none
  | some e => ((e.2.find? (fun r => decide (r.1 = d))).map (·.2))

/-- `BacktestEngine.calculate_equity`: cash plus, for each held position
whose symbol has a row at the date, quantity × close. -/
def calculate_equity (st : EngineState) (md : MarketData) (d : ℕ) : ℚ :=
  st.positions.foldl
    (fun eq sp =>
      match lookupClose md sp.1 d with
      | some c => eq + (sp.2.quantity : ℚ) * c
      | none => eq)
    st.current_capital

/-- Outcome of one `execute_trade` call. -/
inductive TradeOutcome where
  | ok (st : EngineState)
  | rejected
  | raisedNameError
  | raisedZeroDiv
deriving DecidableEq, Repr

/-- The denominator `price * (1 + BACKTEST_CONFIG['commission_rate'])` of
the affordability computation. -/
def buyDivisor (price : ℚ) : ℚ := price * (1 + commission_rate)

/-- `max_affordable = int(self.current_capital / (price * (1 + rate)))`. -/
def buyMaxAffordable (cap price : ℚ) : ℤ := pyInt (cap / buyDivisor price)

/-- `actual_volume = min(volume, max_affordable // 100 * 100)`. -/
def buyActualVolume (cap price : ℚ) (volume : ℤ) : ℤ :=
  min volume (lotFloor (buyMaxAffordable cap price))

/-- `commission = max(amount * rate, 5)` — the same expression is used for
the BUY cost and the SELL revenue. -/
def commissionOf (amount : ℚ) : ℚ := max (amount * commission_rate) 5

/-- `total_cost = cost + commission` for the BUY fill computed from the
state's cash, the signal price and the signal volume. -/
def buyTotalCost (cap price : ℚ) (volume : ℤ) : ℚ :=
  (buyActualVolume cap price volume : ℚ) * price
    + commissionOf ((buyActualVolume cap price volume : ℚ) * price)

/-- The trade-record dict appended at the end of `execute_trade`; `st` is
the engine state after the mutation, so `capital_after` and `equity` are
the post-trade values. -/
def mkTradeRecord (signal : TradeSignal) (actual_volume : ℤ) (commission : ℚ)
    (st : EngineState) (md : MarketData) : TradeRecord :=
  { date := signal.date
    symbol := signal.symbol
    action := signal.action
    price := signal.price
    quantity := actual_volume
    commission := commission
    reason := signal.reason
    capital_after := st.current_capital
    equity := calculate_equity st md signal.date }

/-- The BUY branch of `execute_trade` (lines 103-146 plus the shared
record append).  A zero affordability divisor (price = 0) raises
`ZeroDivisionError` in Python before anything is assigned, as does a
weighted-average recomputation whose new quantity is zero. -/
def executeBuy (st : EngineState) (signal : TradeSignal) (md : MarketData) : TradeOutcome :=
  if buyDivisor signal.price = 0 then .raisedZeroDiv
  else
    let actual_volume := buyActualVolume st.current_capital signal.price signal.volume
    if actual_volume ≤ 0 then .rejected
    else
      let cost := (actual_volume : ℚ) * signal.price
      let commission := commissionOf cost
      let total_cost := cost + commission
      if total_cost > st.current_capital then .rejected
      else
        match lookupPos st.positions signal.symbol with
        | some old_position =>
            if old_position.quantity + actual_volume = 0 then .raisedZeroDiv
            else
              let new_quantity := old_position.quantity + actual_volume
              let new_avg_price :=
                (old_position.avg_price * (old_position.quantity : ℚ)
                  + signal.price * (actual_volume : ℚ)) / (new_quantity : ℚ)
              let st1 : EngineState :=
                { st with
                  positions := insertPos st.positions signal.symbol
                    ⟨signal.symbol, new_quantity, new_avg_price, old_position.entry_date⟩
                  current_capital := st.current_capital - total_cost }
              .ok { st1 with
                trade_log := st1.trade_log ++ [mkTradeRecord signal actual_volume commission st1 md] }
        | none =>
            let st1 : EngineState :=
              { st with
                positions := insertPos st.positions signal.symbol
                  ⟨signal.symbol, actual_volume, signal.price, signal.date⟩
                current_capital := st.current_capital - total_cost }
            .ok { st1 with
              trade_log := st1.trade_log ++ [mkTradeRecord signal actual_volume commission st1 md] }

/-- The SELL branch of `execute_trade` (lines 148-184 plus the shared
record append). -/
def executeSell (st : EngineState) (signal : TradeSignal) (md : MarketData) : TradeOutcome :=
  match lookupPos st.positions signal.symbol with
  | none => .rejected
  | some pos =>
      if pos.quantity = 0 then .rejected
      else
        let actual_volume := min signal.volume pos.quantity
        let revenue := (actual_volume : ℚ) * signal.price
        let commission := commissionOf revenue
        let tax := revenue * tax_rate
        let total_revenue := revenue - commission - tax
        let remaining_quantity := pos.quantity - actual_volume
        let newPositions :=
          if remaining_quantity = 0 then erasePos st.positions signal.symbol
          else insertPos st.positions signal.symbol
            ⟨signal.symbol, remaining_quantity, pos.avg_price, pos.entry_date⟩
        let st1 : EngineState :=
          { st with
            positions := newPositions
            current_capital := st.current_capital + total_revenue }
        .ok { st1 with
          trade_log := st1.trade_log ++ [mkTradeRecord signal actual_volume commission st1 md] }

/-- `BacktestEngine.execute_trade`.  Any action other than BUY and SELL
falls through both branches and the record construction then reads the
unassigned locals `actual_volume` and `commission`: an unhandled
`NameError`. -/
def execute_trade (st : EngineState) (signal : TradeSignal) (md : MarketData) : TradeOutcome :=
  if signal.action = "BUY" then executeBuy st signal md
  else if signal.action = "SELL" then executeSell st signal md
  else .raisedNameError

/-- State after one `execute_trade` call: the mutated state on success,
the unchanged state otherwise (the `return False` paths mutate nothing,
and each modelled exception is raised before any assignment to `self`). -/
def applyTrade (st : EngineState) (signal : TradeSignal) (md : MarketData) : EngineState :=
  match execute_trade st signal md with
  | .ok st2 => st2
  | _ => st

/-- State after a list of `execute_trade` calls. -/
def runSignals (st : EngineState) (signals : List TradeSignal) (md : MarketData) : EngineState :=
  signals.foldl (fun s signal => applyTrade s signal md) st

/-- BacktestResult dataclass, restricted to the rational fields (see the
file header for `annual_return`, `volatility`, `sharpe_ratio`, which the
degenerate branch sets to the literal `0.0`); `profit_factor = none`
models the float `inf`. -/
structure BacktestResult where
  total_return : ℚ
  max_drawdown : ℚ
  win_rate : ℚ
  profit_factor : Option ℚ
  total_trades : ℕ
  winning_trades : ℕ
  losing_trades : ℕ
  final_equity : ℚ
  trade_log : List TradeRecord
deriving DecidableEq, Repr

/-- The matched buy of the trade-attribution loop: the price of the last
record of the whole log (`iloc[-1]` of the filtered frame, which keeps log
order) whose action is BUY, whose symbol matches, and whose date is at or
before the sell date. -/
def matchBuyPrice (log : List TradeRecord) (sym : String) (d : ℕ) : Option ℚ :=
  ((log.filter (fun r =>
    decide (r.action = "BUY") && decide (r.symbol = sym) && decide (r.date ≤ d))).getLast?).map
    (·.price)

/-- Accumulator of the trade-attribution loop. -/
structure TradeStats where
  winning_trades : ℕ
  losing_trades : ℕ
  total_profit : ℚ
  total_loss : ℚ
deriving DecidableEq, Repr

/-- One iteration of the SELL loop: an unmatched sell changes nothing;
`profit = (sell_price - buy_price) * quantity`, counted as a win when
strictly positive and as a loss (adding `abs profit`) otherwise. -/
def sellStatStep (log : List TradeRecord) (acc : TradeStats) (r : TradeRecord) : TradeStats :=
  match matchBuyPrice log r.symbol r.date with
  | none => acc
  | some buy_price =>
      let profit := (r.price - buy_price) * (r.quantity : ℚ)
      if profit > 0 then
        { acc with
          winning_trades := acc.winning_trades + 1
          total_profit := acc.total_profit + profit }
      else
        { acc with
          losing_trades := acc.losing_trades + 1
          total_loss := acc.total_loss + |profit| }

/-- The trade statistics of `calculate_backtest_metrics`: the SELL records
of the log, in order, each matched against the whole log. -/
def tradeStats (log : List TradeRecord) : TradeStats :=
  (log.filter (fun r => decide (r.action = "SELL"))).foldl (sellStatStep log) ⟨0, 0, 0, 0⟩

/-- Drawdown series against the running maximum (the `m` accumulator is
the cumulative max of the equities seen so far). -/
def ddAux : List ℚ → ℚ → List ℚ
  | [], _ => []
  | e :: rest, m =>
      let m2 := max m e
      ((e - m2) / m2) :: ddAux rest m2

/-- Pandas `cummax` starts at the first element, so the running maximum is
seeded with the head. -/
def drawdowns : List ℚ → List ℚ
  | [] => []
  | e :: rest => ddAux (e :: rest) e

/-- Minimum of a list (`Series.min()`), 0 on the empty list (unused: the
caller only evaluates it on a non-empty curve). -/
def listMinQ : List ℚ → ℚ
  | [] => 0
  | e :: rest => rest.foldl min e

/-- `BacktestEngine.calculate_backtest_metrics`, rational fields.  With an
empty equity curve every metric is the literal 0 (including
`profit_factor = 0.0`) and `final_equity = initial_capital`; otherwise
the fields are computed from the curve and the trade log. -/
def calculate_backtest_metrics (st : EngineState) : BacktestResult :=
  if st.equity_curve.isEmpty then
    { total_return := 0, max_drawdown := 0, win_rate := 0, profit_factor := some 0
      total_trades := 0, winning_trades := 0, losing_trades := 0
      final_equity := st.initial_capital, trade_log := [] }
  else
    let equities := st.equity_curve.map (·.2)
    let final_equity := equities.getLastD 0
    let total_return := (final_equity - st.initial_capital) / st.initial_capital
    let max_drawdown := |listMinQ (drawdowns equities)|
    let stats := tradeStats st.trade_log
    let total_trades := st.trade_log.length
    let win_rate :=
      if total_trades > 0 then (stats.winning_trades : ℚ) / (total_trades : ℚ) else 0
    let profit_factor :=
      if stats.total_loss > 0 then some (stats.total_profit / stats.total_loss) else none
    { total_return := total_return
      max_drawdown := max_drawdown
      win_rate := win_rate
      profit_factor := profit_factor
      total_trades := total_trades
      winning_trades := stats.winning_trades
      losing_trades := stats.losing_trades
      final_equity := final_equity
      trade_log := st.trade_log }

/-! Shared helper lemmas. -/

lemma pyInt_eq {q : ℚ} {n : ℤ} (h0 : 0 ≤ q) (h1 : (n : ℚ) ≤ q) (h2 : q < n + 1) :
    pyInt q = n := by
  rw [pyInt, if_pos h0, Int.floor_eq_iff]
  exact ⟨h1, by exact_mod_cast h2⟩

lemma pyInt_floor {q : ℚ} (h0 : 0 ≤ q) : pyInt q = ⌊q⌋ := by
  rw [pyInt, if_pos h0]

lemma lotFloor_dvd (n : ℤ) : (100 : ℤ) ∣ lotFloor n :=
  Dvd.intro_left (n.fdiv 100) rfl

lemma lotFloor_ge {n : ℤ} (h : 1000 ≤ n) : 1000 ≤ lotFloor n := by
  rw [lotFloor, Int.fdiv_eq_ediv n (by norm_num)]
  omega

lemma lotFloor_le (n : ℤ) : lotFloor n ≤ n := by
  rw [lotFloor, Int.fdiv_eq_ediv n (by norm_num)]
  omega

lemma mem_insertPos {ps : List (String × Position)} {s : String} {p : Position}
    {x : String × Position} (hx : x ∈ insertPos ps s p) : x = (s, p) ∨ x ∈ ps := by
  induction ps with
  | nil => simpa [insertPos] using hx
  | cons hd tl ih =>
      rcases hd with ⟨k, v⟩
      rw [insertPos] at hx
      by_cases hk : k = s
      · rw [if_pos hk] at hx
        rcases List.mem_cons.mp hx with h | h
        · left; rw [h, hk]
        · right; exact List.mem_cons_of_mem _ h
      · rw [if_neg hk] at hx
        rcases List.mem_cons.mp hx with h | h
        · right; rw [h]; exact List.mem_cons_self _ _
        · rcases ih h with h2 | h2
          · left; exact h2
          · right; exact List.mem_cons_of_mem _ h2

lemma mem_erasePos {ps : List (String × Position)} {s : String}
    {x : String × Position} (hx : x ∈ erasePos ps s) : x ∈ ps := by
  induction ps with
  | nil => simpa [erasePos] using hx
  | cons hd tl ih =>
      rcases hd with ⟨k, v⟩
      rw [erasePos] at hx
      by_cases hk : k = s
      · rw [if_pos hk] at hx
        exact List.mem_cons_of_mem _ hx
      · rw [if_neg hk] at hx
        rcases List.mem_cons.mp hx with h | h
        · rw [h]; exact List.mem_cons_self _ _
        · exact List.mem_cons_of_mem _ (ih h)

lemma lookupPos_mem {ps : List (String × Position)} {s : String} {p : Position}
    (h : lookupPos ps s = some p) : (s, p) ∈ ps := by
  rw [lookupPos] at h
  cases hf : ps.find? (fun q => decide (q.1 = s)) with
  | none => rw [hf] at h; simp at h
  | some e =>
      rw [hf] at h
      have he : e.1 = s := by simpa using List.find?_some hf
      have hm := List.mem_of_find?_eq_some hf
      rcases e with ⟨k, v⟩
      simp only at he
      simp only [Option.map_some', Option.some.injEq] at h
      subst he
      subst h
      exact hm

lemma lookupPos_insertPos_self (ps : List (String × Position)) (s : String) (p : Position) :
    lookupPos (insertPos ps s p) s = some p := by
  induction ps with
  | nil => simp [insertPos, lookupPos, List.find?]
  | cons hd tl ih =>
      rcases hd with ⟨k, v⟩
      rw [insertPos]
      by_cases hk : k = s
      · rw [if_pos hk]
        simp [lookupPos, List.find?, hk]
      · rw [if_neg hk]
        simpa [lookupPos, List.find?, hk] using ih

lemma lookupPos_erasePos_self (ps : List (String × Position)) (s : String)
    (h : (ps.map Prod.fst).Nodup) : lookupPos (erasePos ps s) s = none := by
  induction ps with
  | nil => simp [erasePos, lookupPos, List.find?]
  | cons hd tl ih =>
      rcases hd with ⟨k, v⟩
      simp only [List.map_cons, List.nodup_cons] at h
      rw [erasePos]
      by_cases hk : k = s
      · rw [if_pos hk]
        rw [lookupPos]
        cases hf : tl.find? (fun q => decide (q.1 = s)) with
        | none => simp
        | some e =>
            exfalso
            have he : e.1 = s := by simpa using List.find?_some hf
            have hm := List.mem_of_find?_eq_some hf
            exact h.1 (by rw [hk, ← he]; exact List.mem_map_of_mem Prod.fst hm)
      · rw [if_neg hk]
        simpa [lookupPos, List.find?, hk] using ih h.2

/-! Concrete data of the spec's Scenario A / Scenario B (dates D1 = 1,
D2 = 2, the traded symbol is "X"). -/

def sigA : TradeSignal :=
  { date := 1, symbol := "X", action := "BUY", price := 10, volume := 1000,
    reason := "", confidence := 1 }

def sigB : TradeSignal :=
  { date := 2, symbol := "X", action := "SELL", price := 12, volume := 1000,
    reason := "", confidence := 1 }

def stA : EngineState := engineInit 100000

def recA : TradeRecord :=
  { date := 1, symbol := "X", action := "BUY", price := 10, quantity := 1000,
    commission := 5, reason := "", capital_after := 89995, equity := 89995 }

/-- Expected engine state after Scenario A's BUY. -/
def stAfterBuy : EngineState :=
  { initial_capital := 100000, current_capital := 89995,
    positions := [("X", ⟨"X", 1000, 10, 1⟩)],
    trade_log := [recA], equity_curve := [] }

def recB : TradeRecord :=
  { date := 2, symbol := "X", action := "SELL", price := 12, quantity := 1000,
    commission := 5, reason := "", capital_after := 101978, equity := 101978 }

/-- Expected engine state after Scenario B's SELL. -/
def stAfterSell : EngineState :=
  { initial_capital := 100000, current_capital := 101978,
    positions := [], trade_log := [recA, recB], equity_curve := [] }

/-- C9: for every signal whose action is neither "BUY" nor "SELL" (such as
the documented "HOLD"), `execute_trade` neither returns False nor appends a
trade record: it raises an unhandled NameError, because `actual_volume` and
`commission` are assigned only inside the BUY and SELL branches. -/
theorem execute_trade_non_buy_sell_raises (st : EngineState) (signal : TradeSignal)
    (md : MarketData) (h1 : signal.action ≠ "BUY") (h2 : signal.action ≠ "SELL") :
    execute_trade st signal md = .raisedNameError := by
  rw [execute_trade, if_neg h1, if_neg h2]

/-- Witness for C9: a HOLD signal at a concrete state. -/
theorem execute_trade_non_buy_sell_raises_witness :
    execute_trade (engineInit 100000)
      { date := 1, symbol := "X", action := "HOLD", price := 10, volume := 1000,
        reason := "", confidence := 1 } [] = .raisedNameError :=
  execute_trade_non_buy_sell_raises _ _ _ (by decide) (by decide)

/-- C6 counterexample: constructing the engine with the non-positive
initial capital −100 raises nothing — it returns the ordinary engine state
whose cash is −100.  `__init__` contains no validation and no ConfigError
exists anywhere in the repository. -/
theorem engineInit_accepts_nonpositive_capital :
    engineInit (-100) =
      { initial_capital := -100, current_capital := -100, positions := [],
        trade_log := [], equity_curve := [] } ∧ (-100 : ℚ) ≤ 0 :=
  ⟨rfl, by norm_num⟩

/-- C6 amended: construction never fails; for every non-positive initial
capital the constructor simply stores it and starts with empty collections,
and no simulation step is needed to observe this. -/
theorem engineInit_no_validation (c : ℚ) (hc : c ≤ 0) :
    engineInit c =
      { initial_capital := c, current_capital := c, positions := [],
        trade_log := [], equity_curve := [] } := rfl

/-- Witness for the amended C6 at capital −5. -/
theorem engineInit_no_validation_witness :
    engineInit (-5) =
      { initial_capital := -5, current_capital := -5, positions := [],
        trade_log := [], equity_curve := [] } :=
  engineInit_no_validation (-5) (by norm_num)

/-- C2: Scenario A. With cash 100000, price 10, requested volume 1000:
affordable = floor(100000/10.003) = 9997, lot-floored to 9900, actual fill
min(1000, 9900) = 1000, cost 10000, commission max(3, 5) = 5, total 10005,
cash after 89995, position of 1000 shares at average price 10; and in
general a BUY fails (returns False) when the actual volume is ≤ 0 or when
the total cost exceeds the cash at call time. -/
theorem scenA_buy_correct :
    buyMaxAffordable 100000 10 = 9997 ∧
    lotFloor (buyMaxAffordable 100000 10) = 9900 ∧
    buyActualVolume 100000 10 1000 = 1000 ∧
    ((buyActualVolume 100000 10 1000 : ℚ) * 10 = 10000) ∧
    commissionOf 10000 = 5 ∧
    buyTotalCost 100000 10 1000 = 10005 ∧
    execute_trade stA sigA [] = .ok stAfterBuy ∧
    (∀ (st : EngineState) (sig : TradeSignal) (md : MarketData),
      sig.action = "BUY" → buyDivisor sig.price ≠ 0 →
      buyActualVolume st.current_capital sig.price sig.volume ≤ 0 →
      execute_trade st sig md = .rejected) ∧
    (∀ (st : EngineState) (sig : TradeSignal) (md : MarketData),
      sig.action = "BUY" → buyDivisor sig.price ≠ 0 →
      0 < buyActualVolume st.current_capital sig.price sig.volume →
      st.current_capital < buyTotalCost st.current_capital sig.price sig.volume →
      execute_trade st sig md = .rejected) := by
  have hMA : buyMaxAffordable 100000 10 = 9997 := by
    rw [buyMaxAffordable]
    apply pyInt_eq <;> norm_num [buyDivisor, commission_rate]
  have hLot : lotFloor (buyMaxAffordable 100000 10) = 9900 := by rw [hMA]; decide
  have hAV : buyActualVolume 100000 10 1000 = 1000 := by
    rw [buyActualVolume, hLot]; decide
  refine ⟨hMA, hLot, hAV, by rw [hAV]; norm_num, by norm_num [commissionOf, commission_rate],
    ?_, ?_, ?_, ?_⟩
  · rw [buyTotalCost, hAV]; norm_num [commissionOf, commission_rate]
  · rw [execute_trade]
    norm_num [sigA, stA, engineInit, executeBuy, hAV, buyDivisor, commission_rate,
      commissionOf, lookupPos, mkTradeRecord, calculate_equity, insertPos, lookupClose,
      stAfterBuy, recA]
  · intro st sig md hact hdiv hle
    rw [execute_trade, if_pos hact, executeBuy, if_neg hdiv]
    simp only [if_pos hle]
  · intro st sig md hact hdiv hpos htot
    rw [execute_trade, if_pos hact, executeBuy, if_neg hdiv]
    rw [buyTotalCost] at htot
    simp only [if_neg (not_le.mpr hpos), if_pos htot]

/-- Witness for C2's universally quantified failure clauses: with cash 1
the lot-floored affordable volume is 0, so the BUY is rejected. -/
theorem scenA_buy_correct_witness :
    execute_trade (engineInit 1) sigA [] = .rejected := by
  have hMA : buyMaxAffordable 1 10 = 0 := by
    rw [buyMaxAffordable]
    apply pyInt_eq <;> norm_num [buyDivisor, commission_rate]
  exact scenA_buy_correct.2.2.2.2.2.2.2.1 (engineInit 1) sigA [] rfl
    (by norm_num [sigA, buyDivisor, commission_rate])
    (by simp only [sigA, engineInit]; rw [buyActualVolume, hMA]; decide)

/-- C3: a SELL fails when the symbol is not held or held with quantity 0;
otherwise actual = min(volume, held), net = revenue − commission − tax is
added to cash, the held quantity decreases by actual, the position is
removed exactly when the remainder is 0 and keeps its average price (and
entry date) otherwise, and one record is appended.  Scenario B: continuing
Scenario A with a SELL of 1000 shares at 12.0: revenue 12000, commission 5,
tax 12, net 11983, cash 101978, position removed. -/
theorem executeSell_correct :
    (∀ (st : EngineState) (sig : TradeSignal) (md : MarketData),
      sig.action = "SELL" → lookupPos st.positions sig.symbol = none →
      execute_trade st sig md = .rejected) ∧
    (∀ (st : EngineState) (sig : TradeSignal) (md : MarketData) (pos : Position),
      sig.action = "SELL" → lookupPos st.positions sig.symbol = some pos →
      pos.quantity = 0 → execute_trade st sig md = .rejected) ∧
    (∀ (st : EngineState) (sig : TradeSignal) (md : MarketData) (pos : Position),
      sig.action = "SELL" → (st.positions.map Prod.fst).Nodup →
      lookupPos st.positions sig.symbol = some pos → pos.quantity ≠ 0 →
      ∃ st2, execute_trade st sig md = .ok st2 ∧
        st2.current_capital =
          st.current_capital + (((min sig.volume pos.quantity : ℤ) : ℚ) * sig.price
            - commissionOf (((min sig.volume pos.quantity : ℤ) : ℚ) * sig.price)
            - ((min sig.volume pos.quantity : ℤ) : ℚ) * sig.price * tax_rate) ∧
        lookupPos st2.positions sig.symbol =
          (if pos.quantity - min sig.volume pos.quantity = 0 then none
           else some ⟨sig.symbol, pos.quantity - min sig.volume pos.quantity,
             pos.avg_price, pos.entry_date⟩) ∧
        (∃ rec, st2.trade_log = st.trade_log ++ [rec])) ∧
    execute_trade stAfterBuy sigB [] = .ok stAfterSell ∧
    ((1000 : ℚ) * 12 = 12000) ∧ commissionOf 12000 = 5 ∧ ((12000 : ℚ) * tax_rate = 12) ∧
    ((12000 : ℚ) - 5 - 12 = 11983) ∧ ((89995 : ℚ) + 11983 = 101978) ∧
    stAfterSell.positions = [] := by
  refine ⟨?_, ?_, ?_, ?_, by norm_num, by norm_num [commissionOf, commission_rate],
    by norm_num [tax_rate], by norm_num, by norm_num, rfl⟩
  · intro st sig md hact hlook
    rw [execute_trade, if_neg (by rw [hact]; decide), if_pos hact]
    simp only [executeSell, hlook]
  · intro st sig md pos hact hlook hq
    rw [execute_trade, if_neg (by rw [hact]; decide), if_pos hact]
    simp only [executeSell, hlook, if_pos hq]
  · intro st sig md pos hact hnodup hlook hq
    rw [execute_trade, if_neg (by rw [hact]; decide), if_pos hact]
    simp only [executeSell, hlook, if_neg hq]
    refine ⟨_, rfl, ?_, ?_, ⟨_, rfl⟩⟩
    · rfl
    · split_ifs with hrem
      · exact lookupPos_erasePos_self _ _ hnodup
      · exact lookupPos_insertPos_self _ _ _
  · rw [execute_trade, if_neg (show ¬(sigB.action = "BUY") by decide),
      if_pos (show sigB.action = "SELL" from rfl)]
    norm_num [sigB, stAfterBuy, stAfterSell, executeSell, lookupPos, List.find?,
      commissionOf, commission_rate, tax_rate, mkTradeRecord, calculate_equity,
      lookupClose, erasePos, recA, recB]

/-- Witness for C3's quantified clauses: selling an unheld symbol from a
fresh engine is rejected. -/
theorem executeSell_correct_witness :
    execute_trade (engineInit 100) sigB [] = .rejected :=
  executeSell_correct.1 (engineInit 100) sigB [] rfl rfl

/-- Buy signal of the C1 counterexample: 100 shares at price 1. -/
def c1Buy : TradeSignal :=
  { date := 1, symbol := "X", action := "BUY", price := 1, volume := 100,
    reason := "", confidence := 1 }

/-- Sell signal of the C1 counterexample: 100 shares at price 0.01, whose
revenue 1 is below the 5-yuan minimum commission. -/
def c1Sell : TradeSignal :=
  { date := 2, symbol := "X", action := "SELL", price := 1 / 100, volume := 100,
    reason := "", confidence := 1 }

/-- C1 counterexample: starting from the non-negative cash 105, a filled
BUY (100 shares at price 1: total cost 100 + 5 = 105, cash 0) followed by a
filled SELL of the same 100 shares at price 0.01 (revenue 1, commission 5,
tax 0.001, net −4.001) leaves cash −4.001 < 0: the claimed invariant
`cash ≥ 0 after every operation` fails on the SELL branch. -/
theorem sell_can_make_cash_negative :
    0 ≤ (engineInit 105).current_capital ∧
    (runSignals (engineInit 105) [c1Buy, c1Sell] []).current_capital < 0 := by
  have hMA : buyMaxAffordable 105 1 = 104 := by
    rw [buyMaxAffordable]
    apply pyInt_eq <;> norm_num [buyDivisor, commission_rate]
  have hAV : buyActualVolume 105 1 100 = 100 := by
    rw [buyActualVolume, hMA]; decide
  have hexec1 : execute_trade (engineInit 105) c1Buy [] =
      .ok { initial_capital := 105, current_capital := 0,
            positions := [("X", ⟨"X", 100, 1, 1⟩)],
            trade_log := [⟨1, "X", "BUY", 1, 100, 5, "", 0, 0⟩],
            equity_curve := [] } := by
    rw [execute_trade, if_pos (show c1Buy.action = "BUY" from rfl)]
    norm_num [c1Buy, engineInit, executeBuy, hAV, buyDivisor, commission_rate,
      commissionOf, lookupPos, List.find?, mkTradeRecord, calculate_equity,
      lookupClose, insertPos]
  have hexec2 : execute_trade
      { initial_capital := 105, current_capital := 0,
        positions := [("X", ⟨"X", 100, 1, 1⟩)],
        trade_log := [⟨1, "X", "BUY", 1, 100, 5, "", 0, 0⟩],
        equity_curve := [] } c1Sell [] =
      .ok { initial_capital := 105, current_capital := -4001 / 1000,
            positions := [],
            trade_log := [⟨1, "X", "BUY", 1, 100, 5, "", 0, 0⟩,
              ⟨2, "X", "SELL", 1 / 100, 100, 5, "", -4001 / 1000, -4001 / 1000⟩],
            equity_curve := [] } := by
    rw [execute_trade, if_neg (show ¬(c1Sell.action = "BUY") by decide),
      if_pos (show c1Sell.action = "SELL" from rfl)]
    norm_num [c1Sell, executeSell, lookupPos, List.find?, commissionOf,
      commission_rate, tax_rate, mkTradeRecord, calculate_equity, lookupClose,
      erasePos]
  constructor
  · norm_num [engineInit]
  · have h1 : runSignals (engineInit 105) [c1Buy, c1Sell] [] =
        applyTrade (applyTrade (engineInit 105) c1Buy []) c1Sell [] := rfl
    rw [h1]
    simp only [applyTrade, hexec1, hexec2]
    norm_num

lemma executeBuy_ok_capital {st : EngineState} {sig : TradeSignal} {md : MarketData}
    {st2 : EngineState} (h : executeBuy st sig md = .ok st2) :
    st2.current_capital =
      st.current_capital - buyTotalCost st.current_capital sig.price sig.volume ∧
    buyTotalCost st.current_capital sig.price sig.volume ≤ st.current_capital := by
  rw [executeBuy] at h
  by_cases hdiv : buyDivisor sig.price = 0
  · rw [if_pos hdiv] at h; cases h
  · rw [if_neg hdiv] at h
    simp only at h
    by_cases hle : buyActualVolume st.current_capital sig.price sig.volume ≤ 0
    · rw [if_pos hle] at h; cases h
    · rw [if_neg hle] at h
      by_cases hgt : ((buyActualVolume st.current_capital sig.price sig.volume : ℚ)
          * sig.price
          + commissionOf ((buyActualVolume st.current_capital sig.price sig.volume : ℚ)
            * sig.price)) > st.current_capital
      · rw [if_pos hgt] at h; cases h
      · rw [if_neg hgt] at h
        have htot : buyTotalCost st.current_capital sig.price sig.volume
            ≤ st.current_capital := by
          rw [buyTotalCost]; exact not_lt.mp hgt
        cases hl : lookupPos st.positions sig.symbol with
        | some old_position =>
            rw [hl] at h
            simp only at h
            by_cases hzq : old_position.quantity
                + buyActualVolume st.current_capital sig.price sig.volume = 0
            · rw [if_pos hzq] at h; cases h
            · rw [if_neg hzq] at h
              injection h with h2
              rw [← h2, buyTotalCost]
              exact ⟨rfl, htot⟩
        | none =>
            rw [hl] at h
            simp only at h
            injection h with h2
            rw [← h2, buyTotalCost]
            exact ⟨rfl, htot⟩

lemma applyTrade_buy_nonneg (st : EngineState) (sig : TradeSignal) (md : MarketData)
    (hact : sig.action = "BUY") (h0 : 0 ≤ st.current_capital) :
    0 ≤ (applyTrade st sig md).current_capital := by
  rw [applyTrade]
  cases hexec : execute_trade st sig md with
  | ok st2 =>
      rw [execute_trade, if_pos hact] at hexec
      obtain ⟨hcap, htot⟩ := executeBuy_ok_capital hexec
      rw [hcap]
      linarith
  | rejected => exact h0
  | raisedNameError => exact h0
  | raisedZeroDiv => exact h0

lemma runSignals_buy_nonneg (sigs : List TradeSignal) (st : EngineState) (md : MarketData)
    (hall : ∀ s ∈ sigs, s.action = "BUY") (h0 : 0 ≤ st.current_capital) :
    0 ≤ (runSignals st sigs md).current_capital := by
  induction sigs generalizing st with
  | nil => exact h0
  | cons hd tl ih =>
      rw [runSignals, List.foldl_cons]
      exact ih _ (fun s hs => hall s (List.mem_cons_of_mem _ hs))
        (applyTrade_buy_nonneg st hd md (hall hd (List.mem_cons_self _ _)) h0)

/-- C1 amended: starting from non-negative cash, every sequence of BUY
operations keeps cash non-negative, and a BUY whose computed total cost
exceeds the cash at call time (with a non-zero affordability divisor, i.e.
non-zero price — a zero price raises ZeroDivisionError first) returns
False and changes nothing; but a SELL whose net proceeds are negative can
drive cash below zero (see the counterexample). -/
theorem cash_nonneg_for_buys (st : EngineState) (md : MarketData) :
    (∀ sigs : List TradeSignal, (∀ s ∈ sigs, s.action = "BUY") →
      0 ≤ st.current_capital → 0 ≤ (runSignals st sigs md).current_capital) ∧
    (∀ sig : TradeSignal, sig.action = "BUY" → buyDivisor sig.price ≠ 0 →
      st.current_capital < buyTotalCost st.current_capital sig.price sig.volume →
      execute_trade st sig md = .rejected ∧ applyTrade st sig md = st) := by
  constructor
  · intro sigs hall h0
    exact runSignals_buy_nonneg sigs st md hall h0
  · intro sig hact hdiv htot
    have hrej : execute_trade st sig md = .rejected := by
      rw [execute_trade, if_pos hact, executeBuy, if_neg hdiv]
      by_cases hle : buyActualVolume st.current_capital sig.price sig.volume ≤ 0
      · simp only [if_pos hle]
      · rw [buyTotalCost] at htot
        simp only [if_neg hle, if_pos htot]
    exact ⟨hrej, by rw [applyTrade, hrej]⟩

/-- Witness for the amended C1: one BUY from a fresh engine with cash
100000 keeps cash non-negative. -/
theorem cash_nonneg_for_buys_witness :
    0 ≤ (runSignals (engineInit 100000) [sigA] []).current_capital :=
  (cash_nonneg_for_buys (engineInit 100000) []).1 [sigA]
    (by intro s hs; rw [List.mem_singleton] at hs; rw [hs]; rfl)
    (by norm_num [engineInit])

/-- BUY signal of the C4 counterexample: its requested volume 150 is not a
multiple of the lot size, and only the affordability cap is lot-floored. -/
def c4Buy : TradeSignal :=
  { date := 1, symbol := "X", action := "BUY", price := 10, volume := 150,
    reason := "", confidence := 1 }

/-- C4 counterexample: a BUY of 150 shares at price 10 from cash 100000
fills all 150 shares (min(150, 9900) = 150), leaving a held quantity that
is not a multiple of 100. -/
theorem position_not_lot_multiple :
    lookupPos (applyTrade (engineInit 100000) c4Buy []).positions "X" =
      some ⟨"X", 150, 10, 1⟩ ∧ ¬((100 : ℤ) ∣ 150) := by
  have hMA : buyMaxAffordable 100000 10 = 9997 := by
    rw [buyMaxAffordable]
    apply pyInt_eq <;> norm_num [buyDivisor, commission_rate]
  have hAV : buyActualVolume 100000 10 150 = 150 := by
    rw [buyActualVolume, lotFloor, hMA]; decide
  have hexec : execute_trade (engineInit 100000) c4Buy [] =
      .ok { initial_capital := 100000, current_capital := 98495,
            positions := [("X", ⟨"X", 150, 10, 1⟩)],
            trade_log := [⟨1, "X", "BUY", 10, 150, 5, "", 98495, 98495⟩],
            equity_curve := [] } := by
    rw [execute_trade, if_pos (show c4Buy.action = "BUY" from rfl)]
    norm_num [c4Buy, engineInit, executeBuy, hAV, buyDivisor, commission_rate,
      commissionOf, lookupPos, List.find?, mkTradeRecord, calculate_equity,
      lookupClose, insertPos]
  constructor
  · simp only [applyTrade, hexec]
    simp [lookupPos, List.find?]
  · decide

lemma executeBuy_ok_shape {st : EngineState} {sig : TradeSignal} {md : MarketData}
    {st2 : EngineState} (h : executeBuy st sig md = .ok st2) :
    0 < buyActualVolume st.current_capital sig.price sig.volume ∧
    ∃ p : Position, st2.positions = insertPos st.positions sig.symbol p ∧
      (p.quantity = buyActualVolume st.current_capital sig.price sig.volume ∨
        ∃ old_position, lookupPos st.positions sig.symbol = some old_position ∧
          p.quantity = old_position.quantity
            + buyActualVolume st.current_capital sig.price sig.volume) := by
  rw [executeBuy] at h
  by_cases hdiv : buyDivisor sig.price = 0
  · rw [if_pos hdiv] at h; cases h
  · rw [if_neg hdiv] at h
    simp only at h
    by_cases hle : buyActualVolume st.current_capital sig.price sig.volume ≤ 0
    · rw [if_pos hle] at h; cases h
    · rw [if_neg hle] at h
      refine ⟨lt_of_not_le hle, ?_⟩
      by_cases hgt : ((buyActualVolume st.current_capital sig.price sig.volume : ℚ)
          * sig.price
          + commissionOf ((buyActualVolume st.current_capital sig.price sig.volume : ℚ)
            * sig.price)) > st.current_capital
      · rw [if_pos hgt] at h; cases h
      · rw [if_neg hgt] at h
        cases hl : lookupPos st.positions sig.symbol with
        | some old_position =>
            rw [hl] at h
            simp only at h
            by_cases hzq : old_position.quantity
                + buyActualVolume st.current_capital sig.price sig.volume = 0
            · rw [if_pos hzq] at h; cases h
            · rw [if_neg hzq] at h
              injection h with h2
              exact ⟨_, by rw [← h2], Or.inr ⟨old_position, rfl, rfl⟩⟩
        | none =>
            rw [hl] at h
            simp only at h
            injection h with h2
            exact ⟨_, by rw [← h2], Or.inl rfl⟩

lemma executeSell_ok_shape {st : EngineState} {sig : TradeSignal} {md : MarketData}
    {st2 : EngineState} (h : executeSell st sig md = .ok st2) :
    ∃ pos, lookupPos st.positions sig.symbol = some pos ∧ pos.quantity ≠ 0 ∧
      (st2.positions = erasePos st.positions sig.symbol ∨
        (pos.quantity - min sig.volume pos.quantity ≠ 0 ∧
          st2.positions = insertPos st.positions sig.symbol
            ⟨sig.symbol, pos.quantity - min sig.volume pos.quantity,
              pos.avg_price, pos.entry_date⟩)) := by
  rw [executeSell] at h
  cases hl : lookupPos st.positions sig.symbol with
  | none => rw [hl] at h; cases h
  | some pos =>
      rw [hl] at h
      simp only at h
      by_cases hq : pos.quantity = 0
      · rw [if_pos hq] at h; cases h
      · rw [if_neg hq] at h
        refine ⟨pos, rfl, hq, ?_⟩
        by_cases hrem : pos.quantity - min sig.volume pos.quantity = 0
        · rw [if_pos hrem] at h
          injection h with h2
          exact Or.inl (by rw [← h2])
        · rw [if_neg hrem] at h
          injection h with h2
          exact Or.inr ⟨hrem, by rw [← h2]⟩

lemma applyTrade_pos_positive (st : EngineState) (sig : TradeSignal) (md : MarketData)
    (hinv : ∀ x ∈ st.positions, 0 < x.2.quantity) :
    ∀ x ∈ (applyTrade st sig md).positions, 0 < x.2.quantity := by
  rw [applyTrade]
  cases hexec : execute_trade st sig md with
  | ok st2 =>
      rw [execute_trade] at hexec
      by_cases hb : sig.action = "BUY"
      · rw [if_pos hb] at hexec
        obtain ⟨hpos, p, hps, hq⟩ := executeBuy_ok_shape hexec
        intro x hx
        rw [hps] at hx
        rcases mem_insertPos hx with hx2 | hx2
        · rw [hx2]
          rcases hq with hq | ⟨old_position, hlold, hq⟩
          · simp only; omega
          · have hold := hinv _ (lookupPos_mem hlold)
            simp only at hold ⊢
            omega
        · exact hinv _ hx2
      · rw [if_neg hb] at hexec
        by_cases hs : sig.action = "SELL"
        · rw [if_pos hs] at hexec
          obtain ⟨pos, hlp, hq, hshape⟩ := executeSell_ok_shape hexec
          have hposq := hinv _ (lookupPos_mem hlp)
          simp only at hposq
          intro x hx
          rcases hshape with hps | ⟨hrem, hps⟩
          · rw [hps] at hx
            exact hinv _ (mem_erasePos hx)
          · rw [hps] at hx
            rcases mem_insertPos hx with hx2 | hx2
            · rw [hx2]
              simp only
              have hmin : min sig.volume pos.quantity ≤ pos.quantity := min_le_right _ _
              omega
            · exact hinv _ hx2
        · rw [if_neg hs] at hexec; cases hexec
  | rejected => exact hinv
  | raisedNameError => exact hinv
  | raisedZeroDiv => exact hinv

lemma dvd_buyActualVolume {sig_volume : ℤ} (cap price : ℚ)
    (hv : (100 : ℤ) ∣ sig_volume) :
    (100 : ℤ) ∣ buyActualVolume cap price sig_volume := by
  rw [buyActualVolume]
  rcases le_total sig_volume (lotFloor (buyMaxAffordable cap price)) with hc | hc
  · rw [min_eq_left hc]; exact hv
  · rw [min_eq_right hc]; exact lotFloor_dvd _

lemma applyTrade_pos_lot (st : EngineState) (sig : TradeSignal) (md : MarketData)
    (hv : (100 : ℤ) ∣ sig.volume)
    (hinv : ∀ x ∈ st.positions, (100 : ℤ) ∣ x.2.quantity) :
    ∀ x ∈ (applyTrade st sig md).positions, (100 : ℤ) ∣ x.2.quantity := by
  rw [applyTrade]
  cases hexec : execute_trade st sig md with
  | ok st2 =>
      rw [execute_trade] at hexec
      by_cases hb : sig.action = "BUY"
      · rw [if_pos hb] at hexec
        obtain ⟨hpos, p, hps, hq⟩ := executeBuy_ok_shape hexec
        have hdvdav := dvd_buyActualVolume st.current_capital sig.price hv
        intro x hx
        rw [hps] at hx
        rcases mem_insertPos hx with hx2 | hx2
        · rw [hx2]
          rcases hq with hq | ⟨old_position, hlold, hq⟩
          · simp only; rw [hq]; exact hdvdav
          · have hold := hinv _ (lookupPos_mem hlold)
            simp only at hold ⊢
            rw [hq]; exact dvd_add hold hdvdav
        · exact hinv _ hx2
      · rw [if_neg hb] at hexec
        by_cases hs : sig.action = "SELL"
        · rw [if_pos hs] at hexec
          obtain ⟨pos, hlp, hq, hshape⟩ := executeSell_ok_shape hexec
          have hposq := hinv _ (lookupPos_mem hlp)
          simp only at hposq
          have hmindvd : (100 : ℤ) ∣ min sig.volume pos.quantity := by
            rcases le_total sig.volume pos.quantity with hc | hc
            · rw [min_eq_left hc]; exact hv
            · rw [min_eq_right hc]; exact hposq
          intro x hx
          rcases hshape with hps | ⟨hrem, hps⟩
          · rw [hps] at hx
            exact hinv _ (mem_erasePos hx)
          · rw [hps] at hx
            rcases mem_insertPos hx with hx2 | hx2
            · rw [hx2]
              simp only
              exact dvd_sub hposq hmindvd
            · exact hinv _ hx2
        · rw [if_neg hs] at hexec; cases hexec
  | rejected => exact hinv
  | raisedNameError => exact hinv
  | raisedZeroDiv => exact hinv

/-- C4 amended: after every sequence of operations every held position's
quantity is strictly positive (so a symbol is present exactly while its
quantity is non-zero), and when every executed signal's volume is a
multiple of 100 every held quantity stays a multiple of 100.  For a signal
volume that is not a multiple of 100 the fill need not be one, because
only the affordability cap is lot-floored (see the counterexample). -/
theorem positions_invariant (st : EngineState) (sigs : List TradeSignal) (md : MarketData)
    (hinv : ∀ x ∈ st.positions, 0 < x.2.quantity) :
    (∀ x ∈ (runSignals st sigs md).positions, 0 < x.2.quantity) ∧
    ((∀ x ∈ st.positions, (100 : ℤ) ∣ x.2.quantity) →
      (∀ s ∈ sigs, (100 : ℤ) ∣ s.volume) →
      ∀ x ∈ (runSignals st sigs md).positions, (100 : ℤ) ∣ x.2.quantity) := by
  induction sigs generalizing st with
  | nil => exact ⟨hinv, fun h _ => h⟩
  | cons hd tl ih =>
      rw [runSignals, List.foldl_cons]
      constructor
      · exact (ih _ (applyTrade_pos_positive st hd md hinv)).1
      · intro hlot hall
        exact (ih _ (applyTrade_pos_positive st hd md hinv)).2
          (applyTrade_pos_lot st hd md (hall hd (List.mem_cons_self _ _)) hlot)
          (fun s hs => hall s (List.mem_cons_of_mem _ hs))

/-- Witness for the amended C4: Scenario A's BUY from a fresh engine
leaves every held quantity positive and a multiple of 100. -/
theorem positions_invariant_witness :
    (∀ x ∈ (runSignals (engineInit 100000) [sigA] []).positions, 0 < x.2.quantity) ∧
    (∀ x ∈ (runSignals (engineInit 100000) [sigA] []).positions, (100 : ℤ) ∣ x.2.quantity) := by
  have h := positions_invariant (engineInit 100000) [sigA] []
    (by intro x hx; simp [engineInit] at hx)
  exact ⟨h.1, h.2 (by intro x hx; simp [engineInit] at hx)
    (by intro s hs; rw [List.mem_singleton] at hs; rw [hs]; decide)⟩

/-- Sell side of the round-trip check: 1000 shares at the unchanged
price 10. -/
def rtSell : TradeSignal :=
  { date := 2, symbol := "X", action := "SELL", price := 10, volume := 1000,
    reason := "", confidence := 1 }

/-- C5: from any sufficient cash c (10005 covers the 10000 cost plus the
5 minimum commission), a BUY of 1000 shares at 10.0 followed immediately by
a SELL of the same 1000 shares at 10.0 fills completely, closes the
position, and leaves cash c − 20 (buy commission 5, sell commission 5,
stamp tax 10), so the final equity is strictly below the initial capital:
a flat round-trip always erodes. -/
theorem round_trip_erodes (c : ℚ) (hc : 10005 ≤ c) :
    ∃ st1 st2,
      execute_trade (engineInit c) sigA [] = .ok st1 ∧
      execute_trade st1 rtSell [] = .ok st2 ∧
      st2.positions = [] ∧
      st2.current_capital = c - 20 ∧
      calculate_equity st2 [] rtSell.date < (engineInit c).initial_capital := by
  have h0c : (0 : ℚ) ≤ c := by linarith
  have hdiv : buyDivisor 10 ≠ 0 := by norm_num [buyDivisor, commission_rate]
  have hq0 : (0 : ℚ) ≤ c / buyDivisor 10 := by
    apply div_nonneg h0c
    norm_num [buyDivisor, commission_rate]
  have hMA : 1000 ≤ buyMaxAffordable c 10 := by
    rw [buyMaxAffordable, pyInt_floor hq0, Int.le_floor]
    rw [show buyDivisor 10 = 10003 / 1000 by norm_num [buyDivisor, commission_rate]]
    rw [le_div_iff (by norm_num : (0 : ℚ) < 10003 / 1000)]
    push_cast
    linarith
  have hAV : buyActualVolume c 10 1000 = 1000 :=
    min_eq_left (lotFloor_ge hMA)
  have hngt : ¬((10005 : ℚ) > c) := not_lt.mpr hc
  have hexec1 : execute_trade (engineInit c) sigA [] =
      .ok { initial_capital := c, current_capital := c - 10005,
            positions := [("X", ⟨"X", 1000, 10, 1⟩)],
            trade_log := [⟨1, "X", "BUY", 10, 1000, 5, "", c - 10005, c - 10005⟩],
            equity_curve := [] } := by
    rw [execute_trade, if_pos (show sigA.action = "BUY" from rfl)]
    norm_num [sigA, engineInit, executeBuy, hAV, buyDivisor, commission_rate,
      commissionOf, lookupPos, List.find?, mkTradeRecord, calculate_equity,
      lookupClose, insertPos, hngt]
  have hexec2 : execute_trade
      { initial_capital := c, current_capital := c - 10005,
        positions := [("X", ⟨"X", 1000, 10, 1⟩)],
        trade_log := [⟨1, "X", "BUY", 10, 1000, 5, "", c - 10005, c - 10005⟩],
        equity_curve := [] } rtSell [] =
      .ok { initial_capital := c, current_capital := c - 20,
            positions := [],
            trade_log := [⟨1, "X", "BUY", 10, 1000, 5, "", c - 10005, c - 10005⟩,
              ⟨2, "X", "SELL", 10, 1000, 5, "", c - 20, c - 20⟩],
            equity_curve := [] } := by
    rw [execute_trade, if_neg (show ¬(rtSell.action = "BUY") by decide),
      if_pos (show rtSell.action = "SELL" from rfl)]
    norm_num [rtSell, executeSell, lookupPos, List.find?, commissionOf,
      commission_rate, tax_rate, mkTradeRecord, calculate_equity, lookupClose,
      erasePos]
    ring
  refine ⟨_, _, hexec1, hexec2, rfl, rfl, ?_⟩
  rw [calculate_equity]
  simp only [List.foldl_nil, engineInit]
  linarith

/-- Witness for C5 at the concrete initial capital 100000. -/
theorem round_trip_erodes_witness :
    (10005 : ℚ) ≤ 100000 ∧
    ∃ st1 st2,
      execute_trade (engineInit 100000) sigA [] = .ok st1 ∧
      execute_trade st1 rtSell [] = .ok st2 ∧
      st2.positions = [] ∧
      st2.current_capital = 100000 - 20 ∧
      calculate_equity st2 [] rtSell.date < (engineInit 100000).initial_capital :=
  ⟨by norm_num, round_trip_erodes 100000 (by norm_num)⟩

/-- The engine state produced by a run over one in-range date on which no
trade executed: `run_backtest` appends one equity-curve point per date
whether or not any trade happened, so the curve is non-empty while the
trade log is empty. -/
def stNoTrade : EngineState :=
  { initial_capital := 100000, current_capital := 100000, positions := [],
    trade_log := [], equity_curve := [(1, 100000)] }

/-- C7 counterexample: on a no-trading run whose date range contains one
date, the metrics are not all zero — `profit_factor` is the float infinity
(modelled `none`), because `total_loss = 0` puts the computation in its
`else float('inf')` branch. -/
theorem no_trading_metrics_not_all_zero :
    stNoTrade.trade_log = [] ∧
    (calculate_backtest_metrics stNoTrade).profit_factor = none ∧
    (calculate_backtest_metrics stNoTrade).profit_factor ≠ some 0 ∧
    (calculate_backtest_metrics stNoTrade).final_equity = stNoTrade.initial_capital := by
  have hpf : (calculate_backtest_metrics stNoTrade).profit_factor = none := by
    norm_num [calculate_backtest_metrics, stNoTrade, tradeStats, List.isEmpty]
  refine ⟨rfl, hpf, by rw [hpf]; simp, ?_⟩
  norm_num [calculate_backtest_metrics, stNoTrade, List.isEmpty]

/-- C7 amended: `calculate_backtest_metrics` returns the all-zero result
(with `profit_factor = 0` and `final_equity = initial_capital`) exactly
when the equity curve is empty; when the curve is non-empty but no trading
occurred, the trade counts and win rate are zero but `profit_factor` is
+∞, not zero. -/
theorem metrics_degenerate_spec :
    (∀ st : EngineState, st.equity_curve = [] →
      calculate_backtest_metrics st =
        { total_return := 0, max_drawdown := 0, win_rate := 0, profit_factor := some 0,
          total_trades := 0, winning_trades := 0, losing_trades := 0,
          final_equity := st.initial_capital, trade_log := [] }) ∧
    (∀ st : EngineState, st.equity_curve ≠ [] → st.trade_log = [] →
      (calculate_backtest_metrics st).total_trades = 0 ∧
      (calculate_backtest_metrics st).winning_trades = 0 ∧
      (calculate_backtest_metrics st).losing_trades = 0 ∧
      (calculate_backtest_metrics st).win_rate = 0 ∧
      (calculate_backtest_metrics st).profit_factor = none) := by
  constructor
  · intro st h
    rw [calculate_backtest_metrics, if_pos (by simp [List.isEmpty_iff, h])]
  · intro st hcurve hlog
    have hne : ¬(st.equity_curve.isEmpty = true) := by
      simpa [List.isEmpty_iff] using hcurve
    rw [calculate_backtest_metrics, if_neg hne]
    simp [hlog, tradeStats]

/-- Witness for the amended C7: the empty-curve branch at a fresh engine
and the one-date no-trade state. -/
theorem metrics_degenerate_spec_witness :
    calculate_backtest_metrics (engineInit 7) =
      { total_return := 0, max_drawdown := 0, win_rate := 0, profit_factor := some 0,
        total_trades := 0, winning_trades := 0, losing_trades := 0,
        final_equity := 7, trade_log := [] } ∧
    (calculate_backtest_metrics stNoTrade).profit_factor = none :=
  ⟨metrics_degenerate_spec.1 (engineInit 7) rfl,
    (metrics_degenerate_spec.2 stNoTrade (List.cons_ne_nil _ _) rfl).2.2.2.2⟩

/-- BUY record of the C10 state. -/
def zBuyRec : TradeRecord :=
  { date := 1, symbol := "X", action := "BUY", price := 10, quantity := 100,
    commission := 5, reason := "", capital_after := 98995, equity := 99995 }

/-- SELL record of the C10 state, at the same price as the BUY. -/
def zSellRec : TradeRecord :=
  { date := 2, symbol := "X", action := "SELL", price := 10, quantity := 100,
    commission := 5, reason := "", capital_after := 99989, equity := 99989 }

/-- A finished-run state whose single matched SELL has profit exactly 0. -/
def stZero : EngineState :=
  { initial_capital := 100000, current_capital := 99989, positions := [],
    trade_log := [zBuyRec, zSellRec], equity_curve := [(1, 99995), (2, 99989)] }

/-- C10: a matched SELL whose price equals the matched BUY price (profit
exactly 0) is counted as a losing trade while adding zero to the total
loss, so `profit_factor` is reported as +∞ even though `losing_trades`
is positive. -/
theorem zero_profit_sell_counted_as_loss :
    (tradeStats stZero.trade_log).losing_trades = 1 ∧
    (tradeStats stZero.trade_log).winning_trades = 0 ∧
    (tradeStats stZero.trade_log).total_loss = 0 ∧
    (calculate_backtest_metrics stZero).losing_trades = 1 ∧
    (calculate_backtest_metrics stZero).profit_factor = none ∧
    0 < (calculate_backtest_metrics stZero).losing_trades := by
  have hstats : tradeStats [zBuyRec, zSellRec] = ⟨0, 1, 0, 0⟩ := by
    norm_num [tradeStats, sellStatStep, matchBuyPrice, zBuyRec, zSellRec,
      List.filter, List.getLast?, List.getLast,
      show decide ("BUY" = "SELL") = false from rfl,
      show decide ("SELL" = "SELL") = true from rfl,
      show decide ("BUY" = "BUY") = true from rfl,
      show decide ("SELL" = "BUY") = false from rfl,
      show decide ("X" = "X") = true from rfl]
  have hlog : stZero.trade_log = [zBuyRec, zSellRec] := rfl
  refine ⟨by rw [hlog, hstats], by rw [hlog, hstats], by rw [hlog, hstats], ?_, ?_, ?_⟩ <;>
    norm_num [calculate_backtest_metrics, List.isEmpty, stZero, hstats]

lemma sellStatStep_counts (log : List TradeRecord) (acc : TradeStats) (r : TradeRecord) :
    (sellStatStep log acc r).winning_trades + (sellStatStep log acc r).losing_trades =
      acc.winning_trades + acc.losing_trades +
        (if (matchBuyPrice log r.symbol r.date).isSome then 1 else 0) := by
  cases h : matchBuyPrice log r.symbol r.date with
  | none => simp [sellStatStep, h]
  | some bp =>
      simp only [sellStatStep, h, Option.isSome_some, if_true]
      split_ifs <;> simp <;> omega

lemma foldl_sellStatStep_counts (log l : List TradeRecord) (acc : TradeStats) :
    (l.foldl (sellStatStep log) acc).winning_trades
      + (l.foldl (sellStatStep log) acc).losing_trades =
    acc.winning_trades + acc.losing_trades +
      l.countP (fun r => (matchBuyPrice log r.symbol r.date).isSome) := by
  induction l generalizing acc with
  | nil => simp
  | cons hd tl ih =>
      rw [List.foldl_cons, ih, List.countP_cons, sellStatStep_counts]
      split_ifs <;> omega

lemma sellStatStep_losing_le (log : List TradeRecord) (acc : TradeStats) (r : TradeRecord) :
    acc.losing_trades ≤ (sellStatStep log acc r).losing_trades := by
  cases h : matchBuyPrice log r.symbol r.date with
  | none => simp [sellStatStep, h]
  | some bp =>
      simp only [sellStatStep, h]
      split_ifs <;> simp

lemma foldl_sellStatStep_losing_le (log l : List TradeRecord) (acc : TradeStats) :
    acc.losing_trades ≤ (l.foldl (sellStatStep log) acc).losing_trades := by
  induction l generalizing acc with
  | nil => exact le_refl _
  | cons hd tl ih =>
      rw [List.foldl_cons]
      exact le_trans (sellStatStep_losing_le log acc hd) (ih _)

lemma foldl_sellStatStep_loss_zero (log l : List TradeRecord) (acc : TradeStats)
    (h : (l.foldl (sellStatStep log) acc).losing_trades = acc.losing_trades) :
    (l.foldl (sellStatStep log) acc).total_loss = acc.total_loss := by
  induction l generalizing acc with
  | nil => rfl
  | cons hd tl ih =>
      rw [List.foldl_cons] at h ⊢
      cases hm : matchBuyPrice log hd.symbol hd.date with
      | none =>
          have hstep : sellStatStep log acc hd = acc := by simp [sellStatStep, hm]
          rw [hstep] at h ⊢
          exact ih _ h
      | some bp =>
          by_cases hp : (hd.price - bp) * (hd.quantity : ℚ) > 0
          · have hstep : sellStatStep log acc hd =
                ⟨acc.winning_trades + 1, acc.losing_trades,
                  acc.total_profit + (hd.price - bp) * (hd.quantity : ℚ), acc.total_loss⟩ := by
              simp [sellStatStep, hm, hp]
            rw [hstep] at h ⊢
            exact ih _ h
          · have hstep : sellStatStep log acc hd =
                ⟨acc.winning_trades, acc.losing_trades + 1, acc.total_profit,
                  acc.total_loss + |(hd.price - bp) * (hd.quantity : ℚ)|⟩ := by
              simp [sellStatStep, hm, hp]
            rw [hstep] at h
            have hmono := foldl_sellStatStep_losing_le log tl
              ⟨acc.winning_trades, acc.losing_trades + 1, acc.total_profit,
                acc.total_loss + |(hd.price - bp) * (hd.quantity : ℚ)|⟩
            simp only at hmono h
            omega

lemma tradeStats_loss_zero (log : List TradeRecord)
    (h : (tradeStats log).losing_trades = 0) : (tradeStats log).total_loss = 0 :=
  foldl_sellStatStep_loss_zero log _ ⟨0, 0, 0, 0⟩ h

lemma metrics_profit_factor (st : EngineState) (hcurve : st.equity_curve ≠ []) :
    (calculate_backtest_metrics st).profit_factor =
      if 0 < (tradeStats st.trade_log).total_loss
      then some ((tradeStats st.trade_log).total_profit / (tradeStats st.trade_log).total_loss)
      else none := by
  rw [calculate_backtest_metrics, if_neg (by simpa [List.isEmpty_iff] using hcurve)]

/-- C8: each SELL record is matched to the last BUY record of the log for
the same symbol with date at or before the sell date (`matchBuyPrice`); a
SELL with no matching BUY contributes to neither the win nor the loss
count (wins + losses equals the number of matched SELL records, and an
unmatched SELL leaves the accumulator unchanged); `win_rate` divides the
winning count by the number of ALL trade records; and `profit_factor` is
total profit over total loss, or +∞ (`none`) when there are no losing
trades. -/
theorem metrics_attribution (st : EngineState) (hcurve : st.equity_curve ≠ []) :
    (calculate_backtest_metrics st).total_trades = st.trade_log.length ∧
    (calculate_backtest_metrics st).winning_trades = (tradeStats st.trade_log).winning_trades ∧
    (calculate_backtest_metrics st).losing_trades = (tradeStats st.trade_log).losing_trades ∧
    (calculate_backtest_metrics st).win_rate =
      (if 0 < st.trade_log.length
        then ((tradeStats st.trade_log).winning_trades : ℚ) / (st.trade_log.length : ℚ)
        else 0) ∧
    ((tradeStats st.trade_log).winning_trades + (tradeStats st.trade_log).losing_trades =
      (st.trade_log.filter (fun r => decide (r.action = "SELL"))).countP
        (fun r => (matchBuyPrice st.trade_log r.symbol r.date).isSome)) ∧
    (∀ (acc : TradeStats) (r : TradeRecord),
      matchBuyPrice st.trade_log r.symbol r.date = none →
      sellStatStep st.trade_log acc r = acc) ∧
    (0 < (tradeStats st.trade_log).total_loss →
      (calculate_backtest_metrics st).profit_factor =
        some ((tradeStats st.trade_log).total_profit / (tradeStats st.trade_log).total_loss)) ∧
    ((tradeStats st.trade_log).losing_trades = 0 →
      (calculate_backtest_metrics st).profit_factor = none) := by
  have hne : ¬(st.equity_curve.isEmpty = true) := by
    simpa [List.isEmpty_iff] using hcurve
  refine ⟨?_, ?_, ?_, ?_, ?_, ?_, ?_, ?_⟩
  · rw [calculate_backtest_metrics, if_neg hne]
  · rw [calculate_backtest_metrics, if_neg hne]
  · rw [calculate_backtest_metrics, if_neg hne]
  · rw [calculate_backtest_metrics, if_neg hne]
  · simpa [tradeStats] using
      foldl_sellStatStep_counts st.trade_log
        (st.trade_log.filter (fun r => decide (r.action = "SELL"))) ⟨0, 0, 0, 0⟩
  · intro acc r hm
    simp [sellStatStep, hm]
  · intro hpos
    rw [metrics_profit_factor st hcurve, if_pos hpos]
  · intro h0
    rw [metrics_profit_factor st hcurve, tradeStats_loss_zero st.trade_log h0]
    norm_num

/-- Witness for C8 at the Scenario A/B trade log (one matched, winning
SELL; no losing trade, hence profit factor +∞). -/
theorem metrics_attribution_witness :
    (calculate_backtest_metrics
      { initial_capital := 100000, current_capital := 101978, positions := [],
        trade_log := [recA, recB],
        equity_curve := [(1, 89995), (2, 101978)] }).profit_factor = none := by
  have hstats : tradeStats [recA, recB] = ⟨1, 0, 2000, 0⟩ := by
    norm_num [tradeStats, sellStatStep, matchBuyPrice, recA, recB,
      List.filter, List.getLast?, List.getLast,
      show decide ("BUY" = "SELL") = false from rfl,
      show decide ("SELL" = "SELL") = true from rfl,
      show decide ("BUY" = "BUY") = true from rfl,
      show decide ("SELL" = "BUY") = false from rfl,
      show decide ("X" = "X") = true from rfl]
  exact (metrics_attribution _ (List.cons_ne_nil _ _)).2.2.2.2.2.2.2 (by rw [hstats])

end Livemore
